import Mathlib

/-!
Verification of the paged memory-bus core of jsSMS (`src/utils.js`).

The JavaScript source keeps two parallel page tables `memReadMap` and
`memWriteMap` (arrays of references to backing blocks), where a backing block
is either a `DataView` over an `ArrayBuffer` (when `SUPPORT_DATAVIEW` holds)
or a plain numeric `Array`.  We embed this shallowly:

* a backing block is a `List Nat` of its cells;
* references are modelled by an arena: `MemState.blocks` is the list of all
  blocks, and the page tables hold arena indices, so that two pages bound to
  the same block alias it, exactly as JavaScript references do;
* JavaScript exceptions (`TypeError` on dereferencing an unbound page,
  `RangeError` on an out-of-range `DataView` access) become `Except` errors;
* the paging-trap calls `this.page(address & 3, value)` performed by
  `writeMem` are returned as an explicit list of `(registerIndex, value)`
  pairs alongside the post-store state, in the order the source makes them
  (the store happens first, then the trap).
-/

/-- Error kinds of a failed memory access: dereferencing an unbound page
entry (a JS `TypeError` on `undefined`, or the DEBUG check firing on a falsy
map entry), and an access beyond the end of the resolved block (a JS
`RangeError` from `DataView`, or the DEBUG offset check firing). -/
inductive MemError where
  | unmappedPage
  | offsetOutOfRange
deriving DecidableEq, Repr

/-- A backing storage block: the cells of a `DataView` buffer or of a plain
JS `Array`.  `DataView` cells are always bytes (< 256); plain-array cells
hold whatever number was stored. -/
abbrev Block := List Nat

/-- `DataView.prototype.getUint8`: an in-range read returns the byte stored
at `o` (bytes of a `DataView` are 8-bit, whence the `% 256` view of the
cell), an out-of-range read throws a `RangeError`. -/
def getUint8 (b : Block) (o : Nat) : Except MemError Nat :=
  if o < b.length then .ok (b.getD o 0 % 256) else .error .offsetOutOfRange

/-- `DataView.prototype.getUint16(o, littleEndian)`: reads the bytes at `o`
(low) and `o+1` (high), throwing a `RangeError` unless both are in range. -/
def getUint16LE (b : Block) (o : Nat) : Except MemError Nat :=
  if o + 1 < b.length then
    .ok ((b.getD o 0 % 256) ||| ((b.getD (o + 1) 0 % 256) <<< 8))
  else .error .offsetOutOfRange

/-- `DataView.prototype.setInt8`: stores the low 8 bits of `v` at `o`,
throwing a `RangeError` when `o` is out of range. -/
def setInt8 (b : Block) (o v : Nat) : Except MemError Block :=
  if o < b.length then .ok (b.set o (v % 256)) else .error .offsetOutOfRange

/-- Plain-array element read followed by `& 0xFF`, as in
`this.memReadMap[address >> 10][address & 0x3FF] & 0xFF`: a hole or
out-of-range index yields `undefined`, and `undefined & 0xFF` is `0`, which
the default `0` of `getD` reproduces. -/
def arrGet (b : Block) (o : Nat) : Nat :=
  b.getD o 0 &&& 0xFF

/-- Plain-array element store `b[o] = v`: in range it overwrites the cell;
past the end the JS array grows (the new holes read back as `0` through
`arrGet`, so they are modelled as `0` cells). -/
def arrSet (b : Block) (o v : Nat) : Block :=
  if o < b.length then b.set o v
  else b ++ List.replicate (o - b.length) 0 ++ [v]

/-- The memory-bus state: the arena of backing blocks plus the two page
tables of `utils.js`, `memReadMap` and `memWriteMap`, each a list of
optional arena indices (64 entries in the emulator; `none` is an unbound
page). -/
structure MemState where
  blocks : List Block
  memReadMap : List (Option Nat)
  memWriteMap : List (Option Nat)
deriving DecidableEq, Repr

/-- Dereference an arena index. -/
def MemState.blockAt (s : MemState) (bid : Nat) : Block :=
  s.blocks.getD bid []

/-- Look up a page table entry, `this.memReadMap[page]` /
`this.memWriteMap[page]`: an out-of-range index or an unbound entry gives
`undefined`, whose dereference throws. -/
def resolvePage (map : List (Option Nat)) (page : Nat) : Except MemError Nat :=
  match map.getD page none with
  | none => .error .unmappedPage
  | some bid => .ok bid

/-- Every arena index stored in the page tables is a live block: the
JavaScript page tables hold object references, which always point at an
existing block. -/
def MemState.wf (s : MemState) : Bool :=
  s.memReadMap.all (fun e => e.all (· < s.blocks.length)) &&
  s.memWriteMap.all (fun e => e.all (· < s.blocks.length))

/-- `JSSMS.Utils.readMem`, `DataView` variant (utils.js lines 145–154):
resolve `memReadMap[address >> 10]`, in debug builds flag an offset past the
block end, then `getUint8(address & 0x3FF)`. -/
def readMem_dv (debug : Bool) (s : MemState) (address : Nat) : Except MemError Nat := do
  let bid ← resolvePage s.memReadMap (address >>> 10)
  let b := s.blockAt bid
  if debug && decide (b.length ≤ address &&& 0x3FF) then .error .offsetOutOfRange
  else getUint8 b (address &&& 0x3FF)

/-- `JSSMS.Utils.readMem`, plain-array variant (utils.js lines 160–162):
`this.memReadMap[address >> 10][address & 0x3FF] & 0xFF`. -/
def readMem_arr (s : MemState) (address : Nat) : Except MemError Nat := do
  let bid ← resolvePage s.memReadMap (address >>> 10)
  .ok (arrGet (s.blockAt bid) (address &&& 0x3FF))

/-- `JSSMS.Utils.readMemWord`, `DataView` variant (utils.js lines 176–190):
if `(address & 0x3FF) < 0x3FF` a single little-endian `getUint16`; at the
last byte of a page, the low byte from the current page and the high byte
from the page resolved for `address + 1` (the source's `++address`),
composed as `low | (high << 8)`. -/
def readMemWord_dv (debug : Bool) (s : MemState) (address : Nat) : Except MemError Nat := do
  let bid ← resolvePage s.memReadMap (address >>> 10)
  let b := s.blockAt bid
  if debug && decide (b.length ≤ address &&& 0x3FF) then .error .offsetOutOfRange
  else if address &&& 0x3FF < 0x3FF then
    getUint16LE b (address &&& 0x3FF)
  else do
    let lo ← getUint8 b (address &&& 0x3FF)
    let bid2 ← resolvePage s.memReadMap ((address + 1) >>> 10)
    let hi ← getUint8 (s.blockAt bid2) ((address + 1) &&& 0x3FF)
    .ok (lo ||| (hi <<< 8))

/-- `JSSMS.Utils.readMemWord`, plain-array variant (utils.js lines 196–199):
always composes `(map[a >> 10][a & 0x3FF] & 0xFF) | ((map[(a+1) >> 10][(a+1)
& 0x3FF] & 0xFF) << 8)` via the source's `++address`. -/
def readMemWord_arr (s : MemState) (address : Nat) : Except MemError Nat := do
  let bid ← resolvePage s.memReadMap (address >>> 10)
  let lo := arrGet (s.blockAt bid) (address &&& 0x3FF)
  let bid2 ← resolvePage s.memReadMap ((address + 1) >>> 10)
  let hi := arrGet (s.blockAt bid2) ((address + 1) &&& 0x3FF)
  .ok (lo ||| (hi <<< 8))

/-- `JSSMS.Utils.writeMem`, `DataView` variant (utils.js lines 106–119):
resolve `memWriteMap[address >> 10]` (a `TypeError` if unbound), debug-check
the offset, `setInt8(address & 0x3FF, value)` (a `RangeError` if out of
range), and then — only if no exception was thrown — the paging-register
trap `this.page(address & 3, value)` when `address >= 0xFFFC`.  The trap
calls are returned beside the post-store state, in program order. -/
def writeMem_dv (debug : Bool) (s : MemState) (address value : Nat) :
    Except MemError (MemState × List (Nat × Nat)) := do
  let bid ← resolvePage s.memWriteMap (address >>> 10)
  let b := s.blockAt bid
  if debug && decide (b.length ≤ address &&& 0x3FF) then .error .offsetOutOfRange
  else do
    let b' ← setInt8 b (address &&& 0x3FF) value
    let s' : MemState := { s with blocks := s.blocks.set bid b' }
    .ok (s', if 0xFFFC ≤ address then [(address &&& 3, value)] else [])

/-- `JSSMS.Utils.writeMem`, plain-array variant (utils.js lines 125–131):
`this.memWriteMap[address >> 10][address & 0x3FF] = value` (a `TypeError` if
the page is unbound; an out-of-range offset grows the array and succeeds),
then the paging trap for `address >= 0xFFFC`. -/
def writeMem_arr (s : MemState) (address value : Nat) :
    Except MemError (MemState × List (Nat × Nat)) := do
  let bid ← resolvePage s.memWriteMap (address >>> 10)
  let b' := arrSet (s.blockAt bid) (address &&& 0x3FF) value
  let s' : MemState := { s with blocks := s.blocks.set bid b' }
  .ok (s', if 0xFFFC ≤ address then [(address &&& 3, value)] else [])

/-- The paging-trap calls observed by the mapper during a write: a write
that throws never reaches `this.page`. -/
def trapsOf (r : Except MemError (MemState × List (Nat × Nat))) : List (Nat × Nat) :=
  match r with
  | .ok (_, t) => t
  | .error _ => []

/-- The address translation performed inline by every accessor of
`utils.js`: page index `address >> 10`, intra-page offset `address & 0x3FF`. -/
def translateAddr (address : Nat) : Nat × Nat :=
  (address >>> 10, address &&& 0x3FF)

/-- `JSSMS.Utils.copyArrayElements` (utils.js lines 75–93), acting on the
block arena so that an aliased call (`src` and `dest` the same JS array)
is represented by `srcId = destId`:
`while (length--) dest[destPos + length] = src[srcPos + length]`, i.e. the
offset walks from `length - 1` down to `0`. -/
def copyArrayElements (blocks : List Block) (srcId srcPos destId destPos : Nat) :
    Nat → List Block
  | 0 => blocks
  | n + 1 =>
    let v := (blocks.getD srcId []).getD (srcPos + n) 0
    copyArrayElements
      (blocks.set destId (arrSet (blocks.getD destId []) (destPos + n) v))
      srcId srcPos destId destPos n

/-- A JS array read at a possibly negative index: a negative index is not an
element access (it reads an absent string property, `undefined`, which later
masking turns into `0`). -/
def getI (b : Block) (i : Int) : Nat :=
  if 0 ≤ i then b.getD i.toNat 0 else 0

/-- A JS array store at a possibly negative index: a negative index sets a
non-element property, invisible to every element read. -/
def setI (b : Block) (i : Int) (v : Nat) : Block :=
  if 0 ≤ i then arrSet b i.toNat v else b

/-- The `copyArrayElements` loop `while (length--) { ... }` as a fuelled
small step over a JS-number (integer) counter: each iteration tests the
pre-decrement value for zero, and a non-zero test runs one body
`dest[destPos + length] = src[srcPos + length]` with the decremented
counter.  `none` means the loop has not terminated within `fuel`
iterations. -/
def copyArrayElementsFuel (src : Block) (srcPos : Int) (dest : Block) (destPos : Int)
    (length : Int) : Nat → Option Block
  | 0 => none
  | fuel + 1 =>
    if length = 0 then some dest
    else
      copyArrayElementsFuel src srcPos
        (setI dest (destPos + (length - 1)) (getI src (srcPos + (length - 1))))
        destPos (length - 1) fuel

/-- A sequence of `writeMem` calls, `DataView` variant, propagating the
first thrown error. -/
def writeSeq_dv (s : MemState) : List (Nat × Nat) → Except MemError MemState
  | [] => .ok s
  | (a, v) :: ws => do
    let (s', _) ← writeMem_dv false s a v
    writeSeq_dv s' ws

/-- A sequence of `writeMem` calls, plain-array variant. -/
def writeSeq_arr (s : MemState) : List (Nat × Nat) → Except MemError MemState
  | [] => .ok s
  | (a, v) :: ws => do
    let (s', _) ← writeMem_arr s a v
    writeSeq_arr s' ws

/-- Two blocks hold identical memory contents when their cells agree as
bytes (a `DataView` cell is the plain-array cell reduced mod 256). -/
def blockEquiv (b1 b2 : Block) : Prop :=
  b1.map (· % 256) = b2.map (· % 256)

/-- Two states — one per backing-storage strategy — with identical page
tables and identical memory contents in every block. -/
def stateEquiv (s1 s2 : MemState) : Prop :=
  s1.memReadMap = s2.memReadMap ∧ s1.memWriteMap = s2.memWriteMap ∧
  s1.blocks.map (fun b => b.map (· % 256)) = s2.blocks.map (fun b => b.map (· % 256))

/-- The page-table invariant of the emulator: all 64 read pages bound, each
to a block covering a full 1 KiB page. -/
def fullyMappedRead (s : MemState) : Prop :=
  s.memReadMap.length = 64 ∧
  ∀ p, p < 64 → ∃ bid, s.memReadMap.getD p none = some bid ∧ (s.blockAt bid).length = 1024

/-! ### Bridge lemmas: bit operations to arithmetic, list cell access -/

lemma shr10_eq (a : Nat) : a >>> 10 = a / 1024 := by
  rw [Nat.shiftRight_eq_div_pow]

lemma and3FF_eq (a : Nat) : a &&& 0x3FF = a % 1024 := by
  have h := Nat.and_pow_two_sub_one_eq_mod a 10
  norm_num at h
  exact h

lemma andFF_eq (a : Nat) : a &&& 0xFF = a % 256 := by
  have h := Nat.and_pow_two_sub_one_eq_mod a 8
  norm_num at h
  exact h

lemma and3_eq (a : Nat) : a &&& 3 = a % 4 := by
  have h := Nat.and_pow_two_sub_one_eq_mod a 2
  norm_num at h
  exact h

lemma and3FF_lt (a : Nat) : a &&& 0x3FF < 1024 := by
  rw [and3FF_eq]; exact Nat.mod_lt _ (by norm_num)

lemma next_same_page {a : Nat} (h : a &&& 0x3FF < 0x3FF) :
    (a + 1) >>> 10 = a >>> 10 ∧ (a + 1) &&& 0x3FF = (a &&& 0x3FF) + 1 := by
  rw [and3FF_eq] at h
  rw [shr10_eq, shr10_eq, and3FF_eq, and3FF_eq]
  omega

lemma next_cross_page {a : Nat} (h : a &&& 0x3FF = 0x3FF) :
    (a + 1) >>> 10 = a >>> 10 + 1 ∧ (a + 1) &&& 0x3FF = 0 := by
  rw [and3FF_eq] at h
  rw [shr10_eq, shr10_eq, and3FF_eq]
  omega

lemma getD_set_self {α : Type} {l : List α} {i : Nat} (h : i < l.length) (v d : α) :
    (l.set i v).getD i d = v := by
  rw [List.getD_eq_getElem?_getD, List.getElem?_set_self', List.getElem?_eq_getElem h]
  rfl

lemma getD_set_ne {α : Type} {l : List α} {i j : Nat} (h : i ≠ j) (v d : α) :
    (l.set i v).getD j d = l.getD j d := by
  rw [List.getD_eq_getElem?_getD, List.getD_eq_getElem?_getD, List.getElem?_set_ne h]

lemma resolvePage_ok_iff {map : List (Option Nat)} {page bid : Nat} :
    resolvePage map page = .ok bid ↔ map.getD page none = some bid := by
  unfold resolvePage
  cases h : map.getD page none <;> simp

lemma resolvePage_error_iff {map : List (Option Nat)} {page : Nat} {e : MemError} :
    resolvePage map page = .error e ↔ map.getD page none = none ∧ e = .unmappedPage := by
  unfold resolvePage
  cases h : map.getD page none <;> simp [eq_comm]

lemma wf_read_lt {s : MemState} (h : s.wf = true) {p bid : Nat}
    (hr : s.memReadMap.getD p none = some bid) : bid < s.blocks.length := by
  unfold MemState.wf at h
  rw [Bool.and_eq_true] at h
  have hmem : (some bid) ∈ s.memReadMap := by
    rw [List.getD_eq_getElem?_getD] at hr
    cases hg : s.memReadMap[p]? with
    | none => rw [hg] at hr; simp at hr
    | some e =>
      rw [hg] at hr
      simp at hr
      subst hr
      exact List.getElem?_mem hg
  have := List.all_eq_true.mp h.1 _ hmem
  simpa using this

lemma wf_write_lt {s : MemState} (h : s.wf = true) {p bid : Nat}
    (hw : s.memWriteMap.getD p none = some bid) : bid < s.blocks.length := by
  unfold MemState.wf at h
  rw [Bool.and_eq_true] at h
  have hmem : (some bid) ∈ s.memWriteMap := by
    rw [List.getD_eq_getElem?_getD] at hw
    cases hg : s.memWriteMap[p]? with
    | none => rw [hg] at hw; simp at hw
    | some e =>
      rw [hg] at hw
      simp at hw
      subst hw
      exact List.getElem?_mem hg
  have := List.all_eq_true.mp h.2 _ hmem
  simpa using this

lemma ok_bind {α β : Type} (a : α) (f : α → Except MemError β) :
    (Except.ok a >>= f) = f a := rfl

lemma error_bind {α β : Type} (e : MemError) (f : α → Except MemError β) :
    ((Except.error e : Except MemError α) >>= f) = .error e := rfl

lemma resolvePage_eq_ok {map : List (Option Nat)} {page bid : Nat}
    (h : map.getD page none = some bid) : resolvePage map page = .ok bid :=
  resolvePage_ok_iff.mpr h

lemma resolvePage_eq_error {map : List (Option Nat)} {page : Nat}
    (h : map.getD page none = none) : resolvePage map page = .error .unmappedPage :=
  resolvePage_error_iff.mpr ⟨h, rfl⟩

/-! ### Pointwise characterizations of the accessors -/

lemma readMem_dv_ok {debug : Bool} {s : MemState} {a bid : Nat}
    (hres : s.memReadMap.getD (a >>> 10) none = some bid)
    (hlen : a &&& 0x3FF < (s.blockAt bid).length) :
    readMem_dv debug s a = .ok ((s.blockAt bid).getD (a &&& 0x3FF) 0 % 256) := by
  unfold readMem_dv
  rw [resolvePage_eq_ok hres, ok_bind]
  simp [getUint8, hlen, Nat.not_le.mpr hlen]

lemma readMem_arr_ok {s : MemState} {a bid : Nat}
    (hres : s.memReadMap.getD (a >>> 10) none = some bid) :
    readMem_arr s a = .ok (arrGet (s.blockAt bid) (a &&& 0x3FF)) := by
  unfold readMem_arr
  rw [resolvePage_eq_ok hres, ok_bind]

lemma readMem_dv_unmapped {debug : Bool} {s : MemState} {a : Nat}
    (hres : s.memReadMap.getD (a >>> 10) none = none) :
    readMem_dv debug s a = .error .unmappedPage := by
  unfold readMem_dv
  rw [resolvePage_eq_error hres, error_bind]

lemma readMem_arr_unmapped {s : MemState} {a : Nat}
    (hres : s.memReadMap.getD (a >>> 10) none = none) :
    readMem_arr s a = .error .unmappedPage := by
  unfold readMem_arr
  rw [resolvePage_eq_error hres, error_bind]

lemma readMem_dv_oor {debug : Bool} {s : MemState} {a bid : Nat}
    (hres : s.memReadMap.getD (a >>> 10) none = some bid)
    (hlen : (s.blockAt bid).length ≤ a &&& 0x3FF) :
    readMem_dv debug s a = .error .offsetOutOfRange := by
  unfold readMem_dv
  rw [resolvePage_eq_ok hres, ok_bind]
  cases debug <;> simp [getUint8, hlen, Nat.not_lt.mpr hlen]

lemma readMem_dv_ok_inv {debug : Bool} {s : MemState} {a lo : Nat}
    (h : readMem_dv debug s a = .ok lo) :
    ∃ bid, s.memReadMap.getD (a >>> 10) none = some bid ∧
      a &&& 0x3FF < (s.blockAt bid).length ∧
      lo = (s.blockAt bid).getD (a &&& 0x3FF) 0 % 256 := by
  cases hres : s.memReadMap.getD (a >>> 10) none with
  | none => rw [readMem_dv_unmapped hres] at h; exact absurd h (by simp)
  | some bid =>
    rcases Nat.lt_or_ge (a &&& 0x3FF) (s.blockAt bid).length with hlen | hlen
    · rw [readMem_dv_ok hres hlen] at h
      exact ⟨bid, rfl, hlen, (Except.ok.injEq _ _).mp h |>.symm⟩
    · rw [readMem_dv_oor hres hlen] at h; exact absurd h (by simp)

lemma readMem_arr_ok_inv {s : MemState} {a lo : Nat}
    (h : readMem_arr s a = .ok lo) :
    ∃ bid, s.memReadMap.getD (a >>> 10) none = some bid ∧
      lo = arrGet (s.blockAt bid) (a &&& 0x3FF) := by
  cases hres : s.memReadMap.getD (a >>> 10) none with
  | none => rw [readMem_arr_unmapped hres] at h; exact absurd h (by simp)
  | some bid =>
    rw [readMem_arr_ok hres] at h
    exact ⟨bid, rfl, (Except.ok.injEq _ _).mp h |>.symm⟩

lemma readMemWord_dv_inpage {debug : Bool} {s : MemState} {a bid : Nat}
    (hres : s.memReadMap.getD (a >>> 10) none = some bid)
    (hoff : a &&& 0x3FF < 0x3FF)
    (hlen : a &&& 0x3FF < (s.blockAt bid).length) :
    readMemWord_dv debug s a = getUint16LE (s.blockAt bid) (a &&& 0x3FF) := by
  unfold readMemWord_dv
  rw [resolvePage_eq_ok hres, ok_bind]
  simp [hoff, Nat.not_le.mpr hlen]

lemma readMemWord_dv_straddle {debug : Bool} {s : MemState} {a bid bid2 : Nat}
    (hres : s.memReadMap.getD (a >>> 10) none = some bid)
    (hoff : a &&& 0x3FF = 0x3FF)
    (hlen : a &&& 0x3FF < (s.blockAt bid).length)
    (hres2 : s.memReadMap.getD ((a + 1) >>> 10) none = some bid2)
    (hlen2 : (a + 1) &&& 0x3FF < (s.blockAt bid2).length) :
    readMemWord_dv debug s a =
      .ok ((s.blockAt bid).getD (a &&& 0x3FF) 0 % 256 |||
        (((s.blockAt bid2).getD ((a + 1) &&& 0x3FF) 0 % 256) <<< 8)) := by
  unfold readMemWord_dv
  rw [resolvePage_eq_ok hres, ok_bind]
  rw [if_neg (by simp [Nat.not_le.mpr hlen])]
  rw [if_neg (by simp [hoff])]
  rw [show getUint8 (s.blockAt bid) (a &&& 0x3FF) = .ok ((s.blockAt bid).getD (a &&& 0x3FF) 0 % 256) by
    simp [getUint8, hlen]]
  rw [ok_bind, resolvePage_eq_ok hres2, ok_bind]
  rw [show getUint8 (s.blockAt bid2) ((a + 1) &&& 0x3FF) = .ok ((s.blockAt bid2).getD ((a + 1) &&& 0x3FF) 0 % 256) by
    simp [getUint8, hlen2]]
  rw [ok_bind]

lemma readMemWord_dv_unmapped {debug : Bool} {s : MemState} {a : Nat}
    (hres : s.memReadMap.getD (a >>> 10) none = none) :
    readMemWord_dv debug s a = .error .unmappedPage := by
  unfold readMemWord_dv
  rw [resolvePage_eq_error hres, error_bind]

lemma readMemWord_dv_oor {debug : Bool} {s : MemState} {a bid : Nat}
    (hres : s.memReadMap.getD (a >>> 10) none = some bid)
    (hlen : (s.blockAt bid).length ≤ a &&& 0x3FF) :
    readMemWord_dv debug s a = .error .offsetOutOfRange := by
  unfold readMemWord_dv
  rw [resolvePage_eq_ok hres, ok_bind]
  by_cases hdbg : (debug && decide ((s.blockAt bid).length ≤ a &&& 0x3FF)) = true
  · rw [if_pos hdbg]
  · rw [if_neg hdbg]
    by_cases hoff : a &&& 0x3FF < 0x3FF
    · rw [if_pos hoff]
      have hno : ¬ ((a &&& 0x3FF) + 1 < (s.blockAt bid).length) := by omega
      simp [getUint16LE, hno]
    · rw [if_neg hoff]
      rw [show getUint8 (s.blockAt bid) (a &&& 0x3FF) = .error .offsetOutOfRange by
        simp [getUint8, Nat.not_lt.mpr hlen], error_bind]

lemma readMemWord_dv_word_oor {debug : Bool} {s : MemState} {a bid : Nat}
    (hres : s.memReadMap.getD (a >>> 10) none = some bid)
    (hoff : a &&& 0x3FF < 0x3FF)
    (hlen : (s.blockAt bid).length ≤ (a &&& 0x3FF) + 1) :
    readMemWord_dv debug s a = .error .offsetOutOfRange := by
  by_cases hlo : (s.blockAt bid).length ≤ a &&& 0x3FF
  · exact readMemWord_dv_oor hres hlo
  · rw [readMemWord_dv_inpage hres hoff (Nat.not_le.mp hlo)]
    simp [getUint16LE, Nat.not_lt.mpr hlen]

lemma readMemWord_dv_straddle_unmapped {debug : Bool} {s : MemState} {a bid : Nat}
    (hres : s.memReadMap.getD (a >>> 10) none = some bid)
    (hoff : a &&& 0x3FF = 0x3FF)
    (hlen : a &&& 0x3FF < (s.blockAt bid).length)
    (hres2 : s.memReadMap.getD ((a + 1) >>> 10) none = none) :
    readMemWord_dv debug s a = .error .unmappedPage := by
  unfold readMemWord_dv
  rw [resolvePage_eq_ok hres, ok_bind]
  rw [if_neg (by simp [Nat.not_le.mpr hlen])]
  rw [if_neg (by simp [hoff])]
  rw [show getUint8 (s.blockAt bid) (a &&& 0x3FF) = .ok ((s.blockAt bid).getD (a &&& 0x3FF) 0 % 256) by
    simp [getUint8, hlen]]
  rw [ok_bind, resolvePage_eq_error hres2, error_bind]

lemma readMemWord_arr_ok {s : MemState} {a bid bid2 : Nat}
    (hres : s.memReadMap.getD (a >>> 10) none = some bid)
    (hres2 : s.memReadMap.getD ((a + 1) >>> 10) none = some bid2) :
    readMemWord_arr s a =
      .ok (arrGet (s.blockAt bid) (a &&& 0x3FF) |||
        (arrGet (s.blockAt bid2) ((a + 1) &&& 0x3FF) <<< 8)) := by
  unfold readMemWord_arr
  rw [resolvePage_eq_ok hres, ok_bind, resolvePage_eq_ok hres2, ok_bind]

lemma readMemWord_arr_unmapped1 {s : MemState} {a : Nat}
    (hres : s.memReadMap.getD (a >>> 10) none = none) :
    readMemWord_arr s a = .error .unmappedPage := by
  unfold readMemWord_arr
  rw [resolvePage_eq_error hres, error_bind]

lemma readMemWord_arr_unmapped2 {s : MemState} {a bid : Nat}
    (hres : s.memReadMap.getD (a >>> 10) none = some bid)
    (hres2 : s.memReadMap.getD ((a + 1) >>> 10) none = none) :
    readMemWord_arr s a = .error .unmappedPage := by
  unfold readMemWord_arr
  rw [resolvePage_eq_ok hres, ok_bind, resolvePage_eq_error hres2, error_bind]

lemma writeMem_arr_ok {s : MemState} {a bid : Nat} (v : Nat)
    (hres : s.memWriteMap.getD (a >>> 10) none = some bid) :
    writeMem_arr s a v =
      .ok ({ s with blocks := s.blocks.set bid (arrSet (s.blockAt bid) (a &&& 0x3FF) v) },
        if 0xFFFC ≤ a then [(a &&& 3, v)] else []) := by
  unfold writeMem_arr
  rw [resolvePage_eq_ok hres, ok_bind]

lemma writeMem_arr_unmapped {s : MemState} {a : Nat} (v : Nat)
    (hres : s.memWriteMap.getD (a >>> 10) none = none) :
    writeMem_arr s a v = .error .unmappedPage := by
  unfold writeMem_arr
  rw [resolvePage_eq_error hres, error_bind]

lemma writeMem_dv_ok {debug : Bool} {s : MemState} {a bid : Nat} (v : Nat)
    (hres : s.memWriteMap.getD (a >>> 10) none = some bid)
    (hlen : a &&& 0x3FF < (s.blockAt bid).length) :
    writeMem_dv debug s a v =
      .ok ({ s with blocks := s.blocks.set bid ((s.blockAt bid).set (a &&& 0x3FF) (v % 256)) },
        if 0xFFFC ≤ a then [(a &&& 3, v)] else []) := by
  unfold writeMem_dv
  rw [resolvePage_eq_ok hres, ok_bind]
  rw [if_neg (by simp [Nat.not_le.mpr hlen])]
  rw [show setInt8 (s.blockAt bid) (a &&& 0x3FF) v = .ok ((s.blockAt bid).set (a &&& 0x3FF) (v % 256)) by
    simp [setInt8, hlen]]
  rw [ok_bind]

lemma writeMem_dv_unmapped {debug : Bool} {s : MemState} {a : Nat} (v : Nat)
    (hres : s.memWriteMap.getD (a >>> 10) none = none) :
    writeMem_dv debug s a v = .error .unmappedPage := by
  unfold writeMem_dv
  rw [resolvePage_eq_error hres, error_bind]

lemma writeMem_dv_oor {debug : Bool} {s : MemState} {a bid : Nat} (v : Nat)
    (hres : s.memWriteMap.getD (a >>> 10) none = some bid)
    (hlen : (s.blockAt bid).length ≤ a &&& 0x3FF) :
    writeMem_dv debug s a v = .error .offsetOutOfRange := by
  unfold writeMem_dv
  rw [resolvePage_eq_ok hres, ok_bind]
  by_cases hdbg : (debug && decide ((s.blockAt bid).length ≤ a &&& 0x3FF)) = true
  · rw [if_pos hdbg]
  · rw [if_neg hdbg]
    rw [show setInt8 (s.blockAt bid) (a &&& 0x3FF) v = .error .offsetOutOfRange by
      simp [setInt8, Nat.not_lt.mpr hlen], error_bind]

lemma writeMem_arr_ok_inv {s : MemState} {a v : Nat} {s' : MemState} {t : List (Nat × Nat)}
    (h : writeMem_arr s a v = .ok (s', t)) :
    ∃ bid, s.memWriteMap.getD (a >>> 10) none = some bid ∧
      s' = { s with blocks := s.blocks.set bid (arrSet (s.blockAt bid) (a &&& 0x3FF) v) } ∧
      t = (if 0xFFFC ≤ a then [(a &&& 3, v)] else []) := by
  cases hres : s.memWriteMap.getD (a >>> 10) none with
  | none => rw [writeMem_arr_unmapped v hres] at h; exact absurd h (by simp)
  | some bid =>
    rw [writeMem_arr_ok v hres] at h
    have := (Except.ok.injEq _ _).mp h
    exact ⟨bid, rfl, (Prod.mk.injEq _ _ _ _).mp this |>.1.symm,
      (Prod.mk.injEq _ _ _ _).mp this |>.2.symm⟩

lemma writeMem_dv_ok_inv {debug : Bool} {s : MemState} {a v : Nat} {s' : MemState}
    {t : List (Nat × Nat)} (h : writeMem_dv debug s a v = .ok (s', t)) :
    ∃ bid, s.memWriteMap.getD (a >>> 10) none = some bid ∧
      a &&& 0x3FF < (s.blockAt bid).length ∧
      s' = { s with blocks := s.blocks.set bid ((s.blockAt bid).set (a &&& 0x3FF) (v % 256)) } ∧
      t = (if 0xFFFC ≤ a then [(a &&& 3, v)] else []) := by
  cases hres : s.memWriteMap.getD (a >>> 10) none with
  | none => rw [writeMem_dv_unmapped v hres] at h; exact absurd h (by simp)
  | some bid =>
    rcases Nat.lt_or_ge (a &&& 0x3FF) (s.blockAt bid).length with hlen | hlen
    · rw [writeMem_dv_ok v hres hlen] at h
      have := (Except.ok.injEq _ _).mp h
      exact ⟨bid, rfl, hlen, (Prod.mk.injEq _ _ _ _).mp this |>.1.symm,
        (Prod.mk.injEq _ _ _ _).mp this |>.2.symm⟩
    · rw [writeMem_dv_oor v hres hlen] at h; exact absurd h (by simp)

lemma arrSet_getD_self (b : Block) (o v : Nat) : (arrSet b o v).getD o 0 = v := by
  unfold arrSet
  split
  · exact getD_set_self (by assumption) v 0
  · rename_i hlen
    rw [List.getD_eq_getElem?_getD, List.getElem?_append_right (by simp; omega)]
    have hidx : o - (b ++ List.replicate (o - List.length b) 0).length = 0 := by
      simp; omega
    rw [hidx]
    rfl

lemma arrSet_length_of_lt {b : Block} {o : Nat} (h : o < b.length) (v : Nat) :
    (arrSet b o v).length = b.length := by
  unfold arrSet
  rw [if_pos h, List.length_set]

lemma arrSet_eq_set {b : Block} {o : Nat} (h : o < b.length) (v : Nat) :
    arrSet b o v = b.set o v := by
  unfold arrSet
  rw [if_pos h]

/-! ### C8 — address translation -/

/-- C8: address translation is a total function on the 16-bit domain.  For
every address `a ≤ 0xFFFF` the inline translation `(a >> 10, a & 0x3FF)`
performed by every accessor (captured by `translateAddr`) yields the page
`a / 1024`, which lies in `[0, 63]`, and the offset `a % 1024`, which lies in
`[0, 1023]`; there is no failure case. -/
theorem translate_total (a : Nat) (h : a ≤ 0xFFFF) :
    translateAddr a = (a / 1024, a % 1024) ∧
    (translateAddr a).1 ≤ 63 ∧ (translateAddr a).2 ≤ 1023 := by
  unfold translateAddr
  rw [shr10_eq, and3FF_eq]
  refine ⟨rfl, by simp; omega, by simp; omega⟩

/-- Witness for C8 at the top address. -/
theorem translate_total_witness :
    translateAddr 0xFFFF = (0xFFFF / 1024, 0xFFFF % 1024) ∧
    (translateAddr 0xFFFF).1 ≤ 63 ∧ (translateAddr 0xFFFF).2 ≤ 1023 :=
  translate_total 0xFFFF (by norm_num)

/-! ### C1 — word reads compose the two byte reads -/

/-- C1: in both backing-storage variants, whenever the two byte reads at `a`
and `a + 1` succeed, `readMemWord` returns `readMem a ||| (readMem (a+1) <<< 8)`.
At a page's last byte (`a & 0x3FF = 0x3FF`) the two bytes come from the
pages `a >> 10` (offset 1023) and `(a+1) >> 10` (offset 0), which may be
bound to different blocks; below it the word is the little-endian pair at
`offset`, `offset + 1` of the single block. -/
theorem readMemWord_composes :
    (∀ (s : MemState) (a lo hi : Nat),
      readMem_dv false s a = .ok lo → readMem_dv false s (a + 1) = .ok hi →
      readMemWord_dv false s a = .ok (lo ||| (hi <<< 8))) ∧
    (∀ (s : MemState) (a lo hi : Nat),
      readMem_arr s a = .ok lo → readMem_arr s (a + 1) = .ok hi →
      readMemWord_arr s a = .ok (lo ||| (hi <<< 8))) := by
  constructor
  · intro s a lo hi h1 h2
    obtain ⟨bid, hres, hlen, hlo⟩ := readMem_dv_ok_inv h1
    obtain ⟨bid2, hres2, hlen2, hhi⟩ := readMem_dv_ok_inv h2
    by_cases hc : a &&& 0x3FF < 0x3FF
    · have hsame := next_same_page hc
      rw [hsame.1, hres] at hres2
      have hb : bid2 = bid := ((Option.some.injEq _ _).mp hres2).symm
      subst hb
      rw [readMemWord_dv_inpage hres hc hlen]
      rw [hsame.2] at hlen2 hhi
      simp [getUint16LE, hlen2, hlo, hhi]
    · have hc' : a &&& 0x3FF = 0x3FF := by have := and3FF_lt a; omega
      rw [readMemWord_dv_straddle hres hc' hlen hres2 hlen2, hlo, hhi]
  · intro s a lo hi h1 h2
    obtain ⟨bid, hres, hlo⟩ := readMem_arr_ok_inv h1
    obtain ⟨bid2, hres2, hhi⟩ := readMem_arr_ok_inv h2
    rw [readMemWord_arr_ok hres hres2, hlo, hhi]

/-- Witness for C1: a 2-byte block `[7, 9]` on page 0 of each variant. -/
theorem readMemWord_composes_witness :
    readMemWord_dv false ⟨[[7, 9]], [some 0], []⟩ 0 = .ok (7 ||| (9 <<< 8)) ∧
    readMemWord_arr ⟨[[7, 9]], [some 0], []⟩ 0 = .ok (7 ||| (9 <<< 8)) :=
  ⟨readMemWord_composes.1 ⟨[[7, 9]], [some 0], []⟩ 0 7 9 rfl rfl,
   readMemWord_composes.2 ⟨[[7, 9]], [some 0], []⟩ 0 7 9 rfl rfl⟩

/-! ### C2 — the trap is gated on write success, not on raw address alone -/

/-- C2 counterexample: with no block bound for page 63, the write to the
paging register `0xFFFC` throws before reaching `this.page`, so the trap is
not invoked even though the address is in the reserved range — against the
claim that the trap fires after every write attempt at `a ≥ 0xFFFC`
regardless of whether the `writeMap` lookup succeeded. -/
theorem writeMem_unmapped_no_trap :
    0xFFFC ≤ 0xFFFC ∧
    writeMem_arr ⟨[], [], []⟩ 0xFFFC 1 = .error .unmappedPage ∧
    trapsOf (writeMem_arr ⟨[], [], []⟩ 0xFFFC 1) = [] ∧
    writeMem_dv false ⟨[], [], []⟩ 0xFFFC 1 = .error .unmappedPage ∧
    trapsOf (writeMem_dv false ⟨[], [], []⟩ 0xFFFC 1) = [] :=
  ⟨Nat.le_refl _, rfl, rfl, rfl, rfl⟩

/-- C2 amended: among writes that complete without throwing, the trap is
driven by the raw address alone — it fires exactly when `a ≥ 0xFFFC`,
independently of the value, of the block contents, and (in the plain-array
variant) even when the store landed beyond the resolved block's end; but a
write whose block resolution throws never reaches the trap. -/
theorem writeMem_trap_after_attempt :
    (∀ (s : MemState) (a v : Nat) (r : MemState × List (Nat × Nat)),
      writeMem_arr s a v = .ok r → r.2 = if 0xFFFC ≤ a then [(a &&& 3, v)] else []) ∧
    (∀ (debug : Bool) (s : MemState) (a v : Nat) (r : MemState × List (Nat × Nat)),
      writeMem_dv debug s a v = .ok r → r.2 = if 0xFFFC ≤ a then [(a &&& 3, v)] else []) ∧
    (∀ (s : MemState) (a v bid : Nat),
      s.memWriteMap.getD (a >>> 10) none = some bid → 0xFFFC ≤ a →
      trapsOf (writeMem_arr s a v) = [(a &&& 3, v)]) := by
  refine ⟨?_, ?_, ?_⟩
  · intro s a v r h
    obtain ⟨s', t⟩ := r
    obtain ⟨bid, _, _, ht⟩ := writeMem_arr_ok_inv h
    exact ht
  · intro debug s a v r h
    obtain ⟨s', t⟩ := r
    obtain ⟨bid, _, _, _, ht⟩ := writeMem_dv_ok_inv h
    exact ht
  · intro s a v bid hres ha
    rw [writeMem_arr_ok v hres]
    simp [trapsOf, ha]

/-- Witness for C2's amended theorem: a one-byte block bound as page 63;
the store at `0xFFFC` lands past the block's end in the plain-array variant
yet the trap still fires with `(0, 1)`. -/
theorem writeMem_trap_after_attempt_witness :
    trapsOf (writeMem_arr ⟨[[5]], [], List.replicate 64 (some 0)⟩ 0xFFFC 1) = [(0xFFFC &&& 3, 1)] :=
  writeMem_trap_after_attempt.2.2 ⟨[[5]], [], List.replicate 64 (some 0)⟩ 0xFFFC 1 0 rfl
    (by norm_num)

/-! ### C3 — the paging trap fires exactly once with (k, v) -/

/-- C3: for `k < 4` and a byte value `v`, a completed write to `0xFFFC + k`
stores `v` into the write-mapped block (page 63) and the trap list holds the
single call `(k, v)`, produced after the store; a write to any address below
`0xFFFC` never invokes the trap in either variant. -/
theorem writeMem_paging_trap :
    (∀ (s : MemState) (k v : Nat), k < 4 → v < 256 → s.wf = true →
      ∀ s' t, writeMem_arr s (0xFFFC + k) v = .ok (s', t) →
        t = [(k, v)] ∧
        ∀ bid, s.memWriteMap.getD 63 none = some bid →
          (s'.blockAt bid).getD ((0xFFFC + k) &&& 0x3FF) 0 = v) ∧
    (∀ (debug : Bool) (s : MemState) (k v : Nat), k < 4 → v < 256 → s.wf = true →
      ∀ s' t, writeMem_dv debug s (0xFFFC + k) v = .ok (s', t) →
        t = [(k, v)] ∧
        ∀ bid, s.memWriteMap.getD 63 none = some bid →
          (s'.blockAt bid).getD ((0xFFFC + k) &&& 0x3FF) 0 = v) ∧
    (∀ (s : MemState) (a v : Nat), a < 0xFFFC →
      trapsOf (writeMem_arr s a v) = [] ∧
      ∀ debug, trapsOf (writeMem_dv debug s a v) = []) := by
  have hpage : ∀ k, k < 4 → (0xFFFC + k) >>> 10 = 63 := by
    intro k hk; rw [shr10_eq]; omega
  have htrap : ∀ k v : Nat, k < 4 →
      (if 0xFFFC ≤ 0xFFFC + k then [((0xFFFC + k) &&& 3, v)] else []) = [(k, v)] := by
    intro k v hk
    rw [if_pos (Nat.le_add_right _ _), and3_eq]
    have hm : (0xFFFC + k) % 4 = k := by omega
    rw [hm]
  refine ⟨?_, ?_, ?_⟩
  · intro s k v hk hv hwf s' t h
    obtain ⟨bid, hres, hs', ht⟩ := writeMem_arr_ok_inv h
    rw [hpage k hk] at hres
    refine ⟨by rw [ht]; exact htrap k v hk, ?_⟩
    intro bid' hres'
    have hb : bid = bid' := (Option.some.injEq _ _).mp (hres.symm.trans hres')
    subst hb
    have hblt : bid < s.blocks.length := wf_write_lt hwf hres'
    rw [hs']
    show ((s.blocks.set bid _).getD bid []).getD _ 0 = v
    rw [getD_set_self hblt]
    exact arrSet_getD_self _ _ v
  · intro debug s k v hk hv hwf s' t h
    obtain ⟨bid, hres, hlen, hs', ht⟩ := writeMem_dv_ok_inv h
    rw [hpage k hk] at hres
    refine ⟨by rw [ht]; exact htrap k v hk, ?_⟩
    intro bid' hres'
    have hb : bid = bid' := (Option.some.injEq _ _).mp (hres.symm.trans hres')
    subst hb
    have hblt : bid < s.blocks.length := wf_write_lt hwf hres'
    rw [hs']
    show ((s.blocks.set bid _).getD bid []).getD _ 0 = v
    rw [getD_set_self hblt, getD_set_self hlen, Nat.mod_eq_of_lt hv]
  · intro s a v ha
    have hno : ¬ (0xFFFC ≤ a) := by omega
    constructor
    · cases hres : s.memWriteMap.getD (a >>> 10) none with
      | none => rw [writeMem_arr_unmapped v hres]; rfl
      | some bid => rw [writeMem_arr_ok v hres]; simp [trapsOf, hno]
    · intro debug
      cases hres : s.memWriteMap.getD (a >>> 10) none with
      | none => rw [writeMem_dv_unmapped v hres]; rfl
      | some bid =>
        rcases Nat.lt_or_ge (a &&& 0x3FF) (s.blockAt bid).length with hlen | hlen
        · rw [writeMem_dv_ok v hres hlen]; simp [trapsOf, hno]
        · rw [writeMem_dv_oor v hres hlen]; rfl

/-- Witness for C3: page 63 bound to a 1024-byte block; writing `0xAB` to
`0xFFFD` stores it at offset 1021 and traps once with `(1, 0xAB)`, while a
write at `0xFFFB` does not trap. -/
theorem writeMem_paging_trap_witness :
    (∀ s' t,
      writeMem_arr ⟨[List.replicate 1024 0], [], List.replicate 64 (some 0)⟩ (0xFFFC + 1) 0xAB =
        .ok (s', t) →
      t = [(1, 0xAB)] ∧
      ∀ bid,
        (⟨[List.replicate 1024 0], [], List.replicate 64 (some 0)⟩ :
          MemState).memWriteMap.getD 63 none = some bid →
        (s'.blockAt bid).getD ((0xFFFC + 1) &&& 0x3FF) 0 = 0xAB) ∧
    trapsOf (writeMem_arr ⟨[List.replicate 1024 0], [], List.replicate 64 (some 0)⟩ 0xFFFB 9) = [] :=
  ⟨writeMem_paging_trap.1 ⟨[List.replicate 1024 0], [], List.replicate 64 (some 0)⟩ 1 0xAB
      (by norm_num) (by norm_num) (by decide),
   (writeMem_paging_trap.2.2 ⟨[List.replicate 1024 0], [], List.replicate 64 (some 0)⟩ 0xFFFB 9
      (by norm_num)).1⟩

lemma getD_of_length_le {α : Type} {l : List α} {n : Nat} (h : l.length ≤ n) (d : α) :
    l.getD n d = d := by
  rw [List.getD_eq_getElem?_getD, List.getElem?_eq_none h]
  rfl

lemma arrGet_of_byte {b : Block} {o v : Nat} (h : b.getD o 0 = v) (hv : v < 256) :
    arrGet b o = v := by
  unfold arrGet
  rw [h, andFF_eq, Nat.mod_eq_of_lt hv]

/-! ### C5 — write/read round trip -/

set_option maxRecDepth 8192 in
/-- C5: when a page is bound identically in the read and the write map to a
block covering the offset, writing a byte `v < 256` at `a` and reading back
at `a` returns `v`, in both variants; concretely, with a 1024-byte zero
block bound read+write as page 0, `writeByte(0x0003, 0x7F)` then
`readByte(0x0003)` gives `0x7F` and `readWord(0x0002)` gives `0x7F00`. -/
theorem write_read_roundtrip :
    (∀ (s : MemState) (a v bid : Nat), s.wf = true →
      s.memReadMap.getD (a >>> 10) none = some bid →
      s.memWriteMap.getD (a >>> 10) none = some bid →
      a &&& 0x3FF < (s.blockAt bid).length → v < 256 →
      (∀ s' t, writeMem_arr s a v = .ok (s', t) → readMem_arr s' a = .ok v) ∧
      (∀ s' t, writeMem_dv false s a v = .ok (s', t) → readMem_dv false s' a = .ok v)) ∧
    (∀ s' t,
      writeMem_arr ⟨[List.replicate 1024 0], [some 0], [some 0]⟩ 0x0003 0x7F = .ok (s', t) →
      readMem_arr s' 0x0003 = .ok 0x7F ∧ readMemWord_arr s' 0x0002 = .ok 0x7F00) := by
  constructor
  · intro s a v bid hwf hr hw hlen hv
    have hblt : bid < s.blocks.length := wf_write_lt hwf hw
    constructor
    · intro s' t h
      obtain ⟨bid0, hres0, hs', _⟩ := writeMem_arr_ok_inv h
      have hb : bid0 = bid := (Option.some.injEq _ _).mp (hres0.symm.trans hw)
      subst hb hs'
      rw [@readMem_arr_ok
        ⟨s.blocks.set bid0 (arrSet (s.blockAt bid0) (a &&& 0x3FF) v),
          s.memReadMap, s.memWriteMap⟩ a bid0 hr]
      congr 1
      refine arrGet_of_byte ?_ hv
      show ((s.blocks.set bid0 _).getD bid0 []).getD _ 0 = v
      rw [getD_set_self hblt, arrSet_eq_set hlen, getD_set_self hlen]
    · intro s' t h
      obtain ⟨bid0, hres0, hlen0, hs', _⟩ := writeMem_dv_ok_inv h
      have hb : bid0 = bid := (Option.some.injEq _ _).mp (hres0.symm.trans hw)
      subst hb hs'
      have hlen' : a &&& 0x3FF <
          ((⟨s.blocks.set bid0 ((s.blockAt bid0).set (a &&& 0x3FF) (v % 256)),
            s.memReadMap, s.memWriteMap⟩ : MemState).blockAt bid0).length := by
        show _ < ((s.blocks.set bid0 _).getD bid0 []).length
        rw [getD_set_self hblt, List.length_set]
        exact hlen0
      rw [@readMem_dv_ok false
        ⟨s.blocks.set bid0 ((s.blockAt bid0).set (a &&& 0x3FF) (v % 256)),
          s.memReadMap, s.memWriteMap⟩ a bid0 hr hlen']
      congr 1
      show (((s.blocks.set bid0 _).getD bid0 []).getD _ 0) % 256 = v
      rw [getD_set_self hblt, getD_set_self hlen0]
      omega
  · intro s' t h
    have hw : writeMem_arr ⟨[List.replicate 1024 0], [some 0], [some 0]⟩ 0x0003 0x7F =
        .ok (⟨[arrSet (List.replicate 1024 0) 3 0x7F], [some 0], [some 0]⟩, []) := rfl
    rw [hw] at h
    injection h with h2
    injection h2 with hs ht
    subst hs ht
    exact ⟨rfl, rfl⟩

set_option maxRecDepth 8192 in
/-- Witness for C5: the concrete scenario, with the post-write state spelled
out. -/
theorem write_read_roundtrip_witness :
    readMem_arr ⟨[arrSet (List.replicate 1024 0) 3 0x7F], [some 0], [some 0]⟩ 0x0003 =
      .ok 0x7F ∧
    readMemWord_arr ⟨[arrSet (List.replicate 1024 0) 3 0x7F], [some 0], [some 0]⟩ 0x0002 =
      .ok 0x7F00 :=
  write_read_roundtrip.2 ⟨[arrSet (List.replicate 1024 0) 3 0x7F], [some 0], [some 0]⟩ [] rfl

/-! ### C7 — debug mode surfaces addressing errors -/

/-- C7: in a debug build (`DataView` variant, `debug = true`) every accessor
raises instead of silently performing the access: `unmappedPage` when no
block is bound for the resolved page (including the page resolved for
`address + 1` on the word-straddle path), `offsetOutOfRange` when the
resolved block's length does not cover the required offset — `offset` for
byte accesses, `offset + 1` as well for an in-page word read. -/
theorem debug_accessors_raise : ∀ (s : MemState) (a v : Nat),
    (s.memReadMap.getD (a >>> 10) none = none →
      readMem_dv true s a = .error .unmappedPage ∧
      readMemWord_dv true s a = .error .unmappedPage) ∧
    (s.memWriteMap.getD (a >>> 10) none = none →
      writeMem_dv true s a v = .error .unmappedPage) ∧
    (∀ bid, s.memReadMap.getD (a >>> 10) none = some bid →
      (s.blockAt bid).length ≤ a &&& 0x3FF →
      readMem_dv true s a = .error .offsetOutOfRange ∧
      readMemWord_dv true s a = .error .offsetOutOfRange) ∧
    (∀ bid, s.memWriteMap.getD (a >>> 10) none = some bid →
      (s.blockAt bid).length ≤ a &&& 0x3FF →
      writeMem_dv true s a v = .error .offsetOutOfRange) ∧
    (∀ bid, s.memReadMap.getD (a >>> 10) none = some bid →
      a &&& 0x3FF < 0x3FF → (s.blockAt bid).length ≤ (a &&& 0x3FF) + 1 →
      readMemWord_dv true s a = .error .offsetOutOfRange) ∧
    (∀ bid, s.memReadMap.getD (a >>> 10) none = some bid →
      a &&& 0x3FF = 0x3FF → a &&& 0x3FF < (s.blockAt bid).length →
      s.memReadMap.getD ((a + 1) >>> 10) none = none →
      readMemWord_dv true s a = .error .unmappedPage) := by
  intro s a v
  exact ⟨fun h => ⟨readMem_dv_unmapped h, readMemWord_dv_unmapped h⟩,
    fun h => writeMem_dv_unmapped v h,
    fun bid h1 h2 => ⟨readMem_dv_oor h1 h2, readMemWord_dv_oor h1 h2⟩,
    fun bid h1 h2 => writeMem_dv_oor v h1 h2,
    fun bid h1 h2 h3 => readMemWord_dv_word_oor h1 h2 h3,
    fun bid h1 h2 h3 h4 => readMemWord_dv_straddle_unmapped h1 h2 h3 h4⟩

set_option maxRecDepth 8192 in
/-- Witness for C7: each error case exercised on a concrete state. -/
theorem debug_accessors_raise_witness :
    readMem_dv true ⟨[], [], []⟩ 0 = .error .unmappedPage ∧
    writeMem_dv true ⟨[], [], []⟩ 0 5 = .error .unmappedPage ∧
    readMem_dv true ⟨[[]], [some 0], [some 0]⟩ 0 = .error .offsetOutOfRange ∧
    writeMem_dv true ⟨[[]], [some 0], [some 0]⟩ 0 5 = .error .offsetOutOfRange ∧
    readMemWord_dv true ⟨[[9]], [some 0], []⟩ 0 = .error .offsetOutOfRange ∧
    readMemWord_dv true ⟨[List.replicate 1024 0], [some 0], []⟩ 1023 = .error .unmappedPage :=
  ⟨(debug_accessors_raise ⟨[], [], []⟩ 0 5).1 rfl |>.1,
   (debug_accessors_raise ⟨[], [], []⟩ 0 5).2.1 rfl,
   (debug_accessors_raise ⟨[[]], [some 0], [some 0]⟩ 0 5).2.2.1 0 rfl (by decide) |>.1,
   (debug_accessors_raise ⟨[[]], [some 0], [some 0]⟩ 0 5).2.2.2.1 0 rfl (by decide),
   (debug_accessors_raise ⟨[[9]], [some 0], []⟩ 0 5).2.2.2.2.1 0 rfl (by decide) (by decide),
   (debug_accessors_raise ⟨[List.replicate 1024 0], [some 0], []⟩ 1023 5).2.2.2.2.2 0 rfl
     (by decide) (by decide) rfl⟩

/-! ### C10 — the word read at 0xFFFF escapes the page table -/

/-- C10: under the page-table invariant (64 read pages, each bound to a
1 KiB block), `readMemWord` succeeds at every address up to `0xFFFE`, but at
`0xFFFF` its straddle path resolves the high byte through page
`(0xFFFF + 1) >> 10 = 64`, one past the 64-entry read map, and throws — so
`readWord` is well-defined only on `[0x0000, 0xFFFE]`. -/
theorem readMemWord_top_address :
    (∀ s : MemState, fullyMappedRead s → ∀ a, a ≤ 0xFFFE →
      (∃ w, readMemWord_dv false s a = .ok w) ∧ (∃ w, readMemWord_arr s a = .ok w)) ∧
    (∀ s : MemState, fullyMappedRead s →
      readMemWord_dv false s 0xFFFF = .error .unmappedPage ∧
      readMemWord_arr s 0xFFFF = .error .unmappedPage) := by
  constructor
  · intro s hfm a ha
    have hpg : a >>> 10 < 64 := by rw [shr10_eq]; omega
    obtain ⟨bid, hres, hlen⟩ := hfm.2 (a >>> 10) hpg
    have hoff := and3FF_lt a
    by_cases hc : a &&& 0x3FF < 0x3FF
    · have hpg2 : (a + 1) >>> 10 = a >>> 10 := (next_same_page hc).1
      obtain ⟨bid2, hres2, _⟩ := hfm.2 ((a + 1) >>> 10) (hpg2 ▸ hpg)
      constructor
      · have hlt : (a &&& 0x3FF) + 1 < (s.blockAt bid).length := by omega
        refine ⟨((s.blockAt bid).getD (a &&& 0x3FF) 0 % 256) |||
          (((s.blockAt bid).getD ((a &&& 0x3FF) + 1) 0 % 256) <<< 8), ?_⟩
        rw [readMemWord_dv_inpage hres hc (by omega)]
        unfold getUint16LE
        rw [if_pos hlt]
      · exact ⟨_, readMemWord_arr_ok hres hres2⟩
    · have hc' : a &&& 0x3FF = 0x3FF := by omega
      have hpg2 : (a + 1) >>> 10 = a >>> 10 + 1 := (next_cross_page hc').1
      have hpg2lt : (a + 1) >>> 10 < 64 := by
        rw [hpg2]
        rw [shr10_eq] at hpg ⊢
        rw [and3FF_eq] at hc'
        omega
      obtain ⟨bid2, hres2, hlen2⟩ := hfm.2 ((a + 1) >>> 10) hpg2lt
      constructor
      · refine ⟨_, readMemWord_dv_straddle hres hc' (by omega) hres2 ?_⟩
        rw [(next_cross_page hc').2, hlen2]
        norm_num
      · exact ⟨_, readMemWord_arr_ok hres hres2⟩
  · intro s hfm
    have hpg : (0xFFFF : Nat) >>> 10 = 63 := rfl
    obtain ⟨bid, hres, hlen⟩ := hfm.2 63 (by norm_num)
    rw [← hpg] at hres
    have hoff : (0xFFFF : Nat) &&& 0x3FF = 0x3FF := rfl
    have hlen' : (0xFFFF : Nat) &&& 0x3FF < (s.blockAt bid).length := by
      rw [hoff, hlen]; norm_num
    have hres2 : s.memReadMap.getD ((0xFFFF + 1) >>> 10) none = none := by
      have h64 : (0xFFFF + 1 : Nat) >>> 10 = 64 := rfl
      rw [h64]
      exact getD_of_length_le (by rw [hfm.1]) none
    exact ⟨readMemWord_dv_straddle_unmapped hres hoff hlen' hres2,
      readMemWord_arr_unmapped2 hres hres2⟩

set_option maxRecDepth 8192 in
/-- Witness for C10: the fully mapped one-block state, read at `0x07FF` and
at `0xFFFF`. -/
theorem readMemWord_top_address_witness :
    ((∃ w, readMemWord_dv false
        ⟨[List.replicate 1024 0], List.replicate 64 (some 0), []⟩ 0x07FF = .ok w) ∧
      (∃ w, readMemWord_arr
        ⟨[List.replicate 1024 0], List.replicate 64 (some 0), []⟩ 0x07FF = .ok w)) ∧
    readMemWord_dv false ⟨[List.replicate 1024 0], List.replicate 64 (some 0), []⟩ 0xFFFF =
      .error .unmappedPage ∧
    readMemWord_arr ⟨[List.replicate 1024 0], List.replicate 64 (some 0), []⟩ 0xFFFF =
      .error .unmappedPage := by
  have hfm : fullyMappedRead ⟨[List.replicate 1024 0], List.replicate 64 (some 0), []⟩ := by
    refine ⟨List.length_replicate 64 (some 0), fun p hp => ⟨0, ?_, ?_⟩⟩
    · rw [List.getD_eq_getElem?_getD, List.getElem?_replicate_of_lt hp]
      rfl
    · show (List.getD [List.replicate 1024 0] 0 []).length = 1024
      rw [List.getD_cons_zero]
      exact List.length_replicate 1024 0
  exact ⟨readMemWord_top_address.1 _ hfm 0x07FF (by norm_num),
    readMemWord_top_address.2 _ hfm⟩

/-! ### C4 — the two backing-storage strategies are observationally equal -/

lemma readMemWord_dv_straddle_oor {debug : Bool} {s : MemState} {a bid bid2 : Nat}
    (hres : s.memReadMap.getD (a >>> 10) none = some bid)
    (hoff : a &&& 0x3FF = 0x3FF)
    (hlen : a &&& 0x3FF < (s.blockAt bid).length)
    (hres2 : s.memReadMap.getD ((a + 1) >>> 10) none = some bid2)
    (hlen2 : (s.blockAt bid2).length ≤ (a + 1) &&& 0x3FF) :
    readMemWord_dv debug s a = .error .offsetOutOfRange := by
  unfold readMemWord_dv
  rw [resolvePage_eq_ok hres, ok_bind]
  rw [if_neg (by simp [Nat.not_le.mpr hlen])]
  rw [if_neg (by simp [hoff])]
  rw [show getUint8 (s.blockAt bid) (a &&& 0x3FF) = .ok ((s.blockAt bid).getD (a &&& 0x3FF) 0 % 256) by
    simp [getUint8, hlen]]
  rw [ok_bind, resolvePage_eq_ok hres2, ok_bind]
  rw [show getUint8 (s.blockAt bid2) ((a + 1) &&& 0x3FF) = .error .offsetOutOfRange by
    simp [getUint8, Nat.not_lt.mpr hlen2], error_bind]

lemma getD_map {α β : Type} (f : α → β) (l : List α) (n : Nat) (d : α) :
    (l.map f).getD n (f d) = f (l.getD n d) := by
  rw [List.getD_eq_getElem?_getD, List.getD_eq_getElem?_getD, List.getElem?_map]
  cases l[n]? <;> rfl

lemma stateEquiv_blockAt {s1 s2 : MemState} (h : stateEquiv s1 s2) (bid : Nat) :
    (s1.blockAt bid).map (· % 256) = (s2.blockAt bid).map (· % 256) := by
  have h3 := h.2.2
  have e1 := getD_map (fun b : Block => b.map (· % 256)) s1.blocks bid []
  have e2 := getD_map (fun b : Block => b.map (· % 256)) s2.blocks bid []
  simp only at e1 e2
  unfold MemState.blockAt
  rw [← e1, ← e2, h3]

lemma stateEquiv_blockAt_length {s1 s2 : MemState} (h : stateEquiv s1 s2) (bid : Nat) :
    (s1.blockAt bid).length = (s2.blockAt bid).length := by
  have := congrArg List.length (stateEquiv_blockAt h bid)
  simpa using this

lemma blockEquiv_getD {b1 b2 : Block} (h : b1.map (· % 256) = b2.map (· % 256)) (p : Nat) :
    b1.getD p 0 % 256 = b2.getD p 0 % 256 := by
  have e1 := getD_map (· % 256) b1 p 0
  have e2 := getD_map (· % 256) b2 p 0
  simp only [Nat.zero_mod] at e1 e2
  rw [← e1, ← e2, h]

lemma stateEquiv_getD_byte {s1 s2 : MemState} (h : stateEquiv s1 s2) (bid p : Nat) :
    (s1.blockAt bid).getD p 0 % 256 = (s2.blockAt bid).getD p 0 % 256 :=
  blockEquiv_getD (stateEquiv_blockAt h bid) p

lemma arrGet_eq_mod (b : Block) (o : Nat) : arrGet b o = b.getD o 0 % 256 := by
  unfold arrGet
  rw [andFF_eq]

lemma readMem_equiv {s1 s2 : MemState} (h : stateEquiv s1 s2) {a x : Nat}
    (h1 : readMem_dv false s1 a = .ok x) : readMem_arr s2 a = .ok x := by
  obtain ⟨bid, hres, hlen, hx⟩ := readMem_dv_ok_inv h1
  have hres2 : s2.memReadMap.getD (a >>> 10) none = some bid := by rw [← h.1]; exact hres
  rw [readMem_arr_ok hres2, arrGet_eq_mod, ← stateEquiv_getD_byte h, ← hx]

lemma readMemWord_equiv {s1 s2 : MemState} (h : stateEquiv s1 s2) {a x : Nat}
    (h1 : readMemWord_dv false s1 a = .ok x) : readMemWord_arr s2 a = .ok x := by
  cases hres : s1.memReadMap.getD (a >>> 10) none with
  | none => rw [readMemWord_dv_unmapped hres] at h1; exact absurd h1 (by simp)
  | some bid =>
    have hres' : s2.memReadMap.getD (a >>> 10) none = some bid := by rw [← h.1]; exact hres
    rcases Nat.lt_or_ge (a &&& 0x3FF) (s1.blockAt bid).length with hlen | hlen
    swap
    · rw [readMemWord_dv_oor hres hlen] at h1; exact absurd h1 (by simp)
    by_cases hc : a &&& 0x3FF < 0x3FF
    · have hsame := next_same_page hc
      have hresn : s1.memReadMap.getD ((a + 1) >>> 10) none = some bid := by
        rw [hsame.1]; exact hres
      have hresn' : s2.memReadMap.getD ((a + 1) >>> 10) none = some bid := by
        rw [← h.1]; exact hresn
      rw [readMemWord_dv_inpage hres hc hlen] at h1
      unfold getUint16LE at h1
      split at h1
      · rename_i hlt
        rw [readMemWord_arr_ok hres' hresn', arrGet_eq_mod, arrGet_eq_mod, hsame.2]
        rw [← stateEquiv_getD_byte h, ← stateEquiv_getD_byte h]
        exact h1
      · exact absurd h1 (by simp)
    · have hc' : a &&& 0x3FF = 0x3FF := by have := and3FF_lt a; omega
      cases hres2 : s1.memReadMap.getD ((a + 1) >>> 10) none with
      | none =>
        rw [readMemWord_dv_straddle_unmapped hres hc' hlen hres2] at h1
        exact absurd h1 (by simp)
      | some bid2 =>
        have hres2' : s2.memReadMap.getD ((a + 1) >>> 10) none = some bid2 := by
          rw [← h.1]; exact hres2
        rcases Nat.lt_or_ge ((a + 1) &&& 0x3FF) (s1.blockAt bid2).length with hlen2 | hlen2
        · rw [readMemWord_dv_straddle hres hc' hlen hres2 hlen2] at h1
          rw [readMemWord_arr_ok hres' hres2', arrGet_eq_mod, arrGet_eq_mod]
          rw [← stateEquiv_getD_byte h, ← stateEquiv_getD_byte h]
          exact h1
        · rw [readMemWord_dv_straddle_oor hres hc' hlen hres2 hlen2] at h1
          exact absurd h1 (by simp)

lemma writeMem_equiv {s1 s2 : MemState} (h : stateEquiv s1 s2) {a v : Nat}
    {t1 t2 : MemState} {l1 l2 : List (Nat × Nat)}
    (h1 : writeMem_dv false s1 a v = .ok (t1, l1))
    (h2 : writeMem_arr s2 a v = .ok (t2, l2)) :
    stateEquiv t1 t2 ∧ l1 = l2 := by
  obtain ⟨bid, hres, hlen, ht1, hl1⟩ := writeMem_dv_ok_inv h1
  obtain ⟨bid', hres', ht2, hl2⟩ := writeMem_arr_ok_inv h2
  have hb : bid' = bid := by
    rw [← h.2.1] at hres'
    exact (Option.some.injEq _ _).mp (hres'.symm.trans hres)
  subst hb ht1 ht2
  refine ⟨⟨h.1, h.2.1, ?_⟩, hl1.trans hl2.symm⟩
  show (s1.blocks.set bid' _).map _ = (s2.blocks.set bid' _).map _
  rw [List.map_set, List.map_set]
  have hlen2 : a &&& 0x3FF < (s2.blockAt bid').length := by
    rw [← stateEquiv_blockAt_length h]; exact hlen
  rw [arrSet_eq_set hlen2]
  simp only [List.map_set]
  rw [h.2.2, stateEquiv_blockAt h bid', Nat.mod_mod_of_dvd]
  exact dvd_refl 256

lemma writeSeq_dv_cons (s : MemState) (a v : Nat) (ws : List (Nat × Nat)) :
    writeSeq_dv s ((a, v) :: ws) = (writeMem_dv false s a v) >>= fun r => writeSeq_dv r.1 ws :=
  rfl

lemma writeSeq_arr_cons (s : MemState) (a v : Nat) (ws : List (Nat × Nat)) :
    writeSeq_arr s ((a, v) :: ws) = (writeMem_arr s a v) >>= fun r => writeSeq_arr r.1 ws :=
  rfl

lemma writeSeq_equiv {ws : List (Nat × Nat)} :
    ∀ {s1 s2 t1 t2 : MemState}, stateEquiv s1 s2 →
      writeSeq_dv s1 ws = .ok t1 → writeSeq_arr s2 ws = .ok t2 → stateEquiv t1 t2 := by
  induction ws with
  | nil =>
    intro s1 s2 t1 t2 h h1 h2
    unfold writeSeq_dv at h1
    unfold writeSeq_arr at h2
    rw [(Except.ok.injEq _ _).mp h1, (Except.ok.injEq _ _).mp h2] at h
    exact h
  | cons av ws ih =>
    intro s1 s2 t1 t2 h h1 h2
    obtain ⟨a, v⟩ := av
    rw [writeSeq_dv_cons] at h1
    rw [writeSeq_arr_cons] at h2
    cases hw1 : writeMem_dv false s1 a v with
    | error e => rw [hw1, error_bind] at h1; exact absurd h1 (by simp)
    | ok r1 =>
      cases hw2 : writeMem_arr s2 a v with
      | error e => rw [hw2, error_bind] at h2; exact absurd h2 (by simp)
      | ok r2 =>
        rw [hw1, ok_bind] at h1
        rw [hw2, ok_bind] at h2
        obtain ⟨r1s, r1t⟩ := r1
        obtain ⟨r2s, r2t⟩ := r2
        exact ih (writeMem_equiv h hw1 hw2).1 h1 h2

/-- C4: for identical memory contents (cellwise equal bytes), the
`DataView` strategy and the plain-array strategy are observationally equal:
every in-range byte or word read that the `DataView` variant answers is
answered identically by the plain-array variant, a write performed by both
keeps the contents identical and emits the same paging-trap calls, and any
common sequence of writes preserves the correspondence. -/
theorem strategies_equiv :
    (∀ (s1 s2 : MemState) (a x : Nat), stateEquiv s1 s2 →
      readMem_dv false s1 a = .ok x → readMem_arr s2 a = .ok x) ∧
    (∀ (s1 s2 : MemState) (a x : Nat), stateEquiv s1 s2 →
      readMemWord_dv false s1 a = .ok x → readMemWord_arr s2 a = .ok x) ∧
    (∀ (s1 s2 : MemState) (a v : Nat) (t1 t2 : MemState) (l1 l2 : List (Nat × Nat)),
      stateEquiv s1 s2 →
      writeMem_dv false s1 a v = .ok (t1, l1) → writeMem_arr s2 a v = .ok (t2, l2) →
      stateEquiv t1 t2 ∧ l1 = l2) ∧
    (∀ (ws : List (Nat × Nat)) (s1 s2 t1 t2 : MemState), stateEquiv s1 s2 →
      writeSeq_dv s1 ws = .ok t1 → writeSeq_arr s2 ws = .ok t2 →
      stateEquiv t1 t2 ∧
      (∀ a x, readMem_dv false t1 a = .ok x → readMem_arr t2 a = .ok x) ∧
      (∀ a x, readMemWord_dv false t1 a = .ok x → readMemWord_arr t2 a = .ok x)) :=
  ⟨fun _ _ _ _ h h1 => readMem_equiv h h1,
   fun _ _ _ _ h h1 => readMemWord_equiv h h1,
   fun _ _ _ _ _ _ _ _ h h1 h2 => writeMem_equiv h h1 h2,
   fun _ _ _ _ _ h h1 h2 =>
     ⟨writeSeq_equiv h h1 h2,
      fun _ _ hr => readMem_equiv (writeSeq_equiv h h1 h2) hr,
      fun _ _ hr => readMemWord_equiv (writeSeq_equiv h h1 h2) hr⟩⟩

/-- Witness for C4: the cell `0x17F` of the plain-array state reduces to the
byte `0x7F` stored by the `DataView` state; a write at `0x0001` followed by
the reads agrees across the strategies. -/
theorem strategies_equiv_witness :
    readMem_arr ⟨[[0x17F, 2]], [some 0], [some 0]⟩ 0 = .ok 0x7F ∧
    readMemWord_arr ⟨[[0x17F, 2]], [some 0], [some 0]⟩ 0 = .ok (0x7F ||| (2 <<< 8)) ∧
    (stateEquiv
      ⟨[[5, 9]], [some 0], [some 0]⟩ ⟨[[0x105, 0x109]], [some 0], [some 0]⟩ ∧
      [] = ([] : List (Nat × Nat))) :=
  ⟨strategies_equiv.1 ⟨[[0x7F, 2]], [some 0], [some 0]⟩ _ 0 0x7F
     (by unfold stateEquiv; exact ⟨rfl, rfl, rfl⟩) rfl,
   strategies_equiv.2.1 ⟨[[0x7F, 2]], [some 0], [some 0]⟩ _ 0 (0x7F ||| (2 <<< 8))
     (by unfold stateEquiv; exact ⟨rfl, rfl, rfl⟩) rfl,
   strategies_equiv.2.2.1 ⟨[[5, 2]], [some 0], [some 0]⟩ ⟨[[0x105, 2]], [some 0], [some 0]⟩
     1 0x109 ⟨[[5, 9]], [some 0], [some 0]⟩ ⟨[[0x105, 0x109]], [some 0], [some 0]⟩ [] []
     (by unfold stateEquiv; exact ⟨rfl, rfl, rfl⟩) rfl rfl⟩

/-! ### C6 — copyArrayElements: descending order, memmove behaviour -/

lemma copyArrayElements_succ (blocks : List Block) (srcId srcPos destId destPos n : Nat) :
    copyArrayElements blocks srcId srcPos destId destPos (n + 1) =
      copyArrayElements
        (blocks.set destId (arrSet (blocks.getD destId []) (destPos + n)
          ((blocks.getD srcId []).getD (srcPos + n) 0)))
        srcId srcPos destId destPos n := rfl

/-- Final-state characterization of the descending copy loop: under the
no-backward-overlap condition (aliased source not starting left of the
destination unless disjoint), cell `p` of the destination block holds the
original source byte for `p` in the copied range and its original value
elsewhere, and every other block is untouched. -/
lemma copyArrayElements_char : ∀ (n : Nat) (blocks : List Block) (srcId srcPos destId destPos : Nat),
    destId < blocks.length →
    destPos + n ≤ (blocks.getD destId []).length →
    (srcId = destId → srcPos ≤ destPos ∨ destPos + n ≤ srcPos) →
    (∀ p, ((copyArrayElements blocks srcId srcPos destId destPos n).getD destId []).getD p 0 =
      if destPos ≤ p ∧ p < destPos + n then (blocks.getD srcId []).getD (srcPos + (p - destPos)) 0
      else (blocks.getD destId []).getD p 0) ∧
    (∀ k, k ≠ destId →
      (copyArrayElements blocks srcId srcPos destId destPos n).getD k [] = blocks.getD k []) := by
  intro n
  induction n with
  | zero =>
    intro blocks srcId srcPos destId destPos _ _ _
    refine ⟨fun p => ?_, fun k _ => rfl⟩
    rw [if_neg (by omega)]
    rfl
  | succ n ih =>
    intro blocks srcId srcPos destId destPos hd hlen halias
    have hstep := copyArrayElements_succ blocks srcId srcPos destId destPos n
    generalize hb1 : blocks.set destId (arrSet (blocks.getD destId []) (destPos + n)
      ((blocks.getD srcId []).getD (srcPos + n) 0)) = blocks1 at hstep
    have hD1 : blocks1.getD destId [] =
        (blocks.getD destId []).set (destPos + n) ((blocks.getD srcId []).getD (srcPos + n) 0) := by
      rw [← hb1, getD_set_self hd, arrSet_eq_set (by omega)]
    have hd1 : destId < blocks1.length := by rw [← hb1, List.length_set]; exact hd
    have hlen1 : destPos + n ≤ (blocks1.getD destId []).length := by
      rw [hD1, List.length_set]; omega
    have halias1 : srcId = destId → srcPos ≤ destPos ∨ destPos + n ≤ srcPos := by
      intro he
      rcases halias he with h | h
      · exact Or.inl h
      · exact Or.inr (by omega)
    have hS1 : blocks1.getD srcId [] =
        if srcId = destId then
          (blocks.getD destId []).set (destPos + n) ((blocks.getD srcId []).getD (srcPos + n) 0)
        else blocks.getD srcId [] := by
      by_cases he : srcId = destId
      · rw [if_pos he]
        subst he
        exact hD1
      · rw [if_neg he, ← hb1, getD_set_ne (fun hh => he hh.symm)]
    obtain ⟨ih1, ih2⟩ := ih blocks1 srcId srcPos destId destPos hd1 hlen1 halias1
    constructor
    · intro p
      rw [hstep, ih1 p]
      by_cases hin : destPos ≤ p ∧ p < destPos + n
      · rw [if_pos hin, if_pos (show destPos ≤ p ∧ p < destPos + (n + 1) by omega), hS1]
        by_cases he : srcId = destId
        · rw [if_pos he]
          have hne : destPos + n ≠ srcPos + (p - destPos) := by
            rcases halias he with h | h <;> omega
          rw [getD_set_ne hne, he]
        · rw [if_neg he]
      · by_cases hedge : destPos ≤ p ∧ p < destPos + (n + 1)
        · have hp : p = destPos + n := by omega
          rw [if_neg hin, if_pos hedge, hD1, hp, getD_set_self (by omega)]
          congr 1
          omega
        · rw [if_neg hin, if_neg hedge, hD1,
            getD_set_ne (show destPos + n ≠ p by omega)]
    · intro k hk
      rw [hstep, ih2 k hk, ← hb1, getD_set_ne (fun hh => hk hh.symm)]

/-- C6: `copyArrayElements` performs `dest[destPos + i] = src[srcPos + i]`
for `i` from `length - 1` down to `0` (first conjunct, one loop step).
Consequently the destination range receives exactly the original source
range when source and destination are different blocks, or the same block
with `destPos ≥ srcPos` (rightward `memmove`) or disjoint ranges; cells
outside the destination range and all other blocks are untouched. -/
theorem copyArrayElements_memmove :
    (∀ (blocks : List Block) (srcId srcPos destId destPos n : Nat),
      copyArrayElements blocks srcId srcPos destId destPos (n + 1) =
        copyArrayElements
          (blocks.set destId (arrSet (blocks.getD destId []) (destPos + n)
            ((blocks.getD srcId []).getD (srcPos + n) 0)))
          srcId srcPos destId destPos n) ∧
    (∀ (blocks : List Block) (srcId srcPos destId destPos n : Nat),
      srcId ≠ destId → destId < blocks.length →
      destPos + n ≤ (blocks.getD destId []).length →
      (∀ i, i < n →
        ((copyArrayElements blocks srcId srcPos destId destPos n).getD destId []).getD
            (destPos + i) 0 =
          (blocks.getD srcId []).getD (srcPos + i) 0) ∧
      (∀ p, p < destPos ∨ destPos + n ≤ p →
        ((copyArrayElements blocks srcId srcPos destId destPos n).getD destId []).getD p 0 =
          (blocks.getD destId []).getD p 0) ∧
      (∀ k, k ≠ destId →
        (copyArrayElements blocks srcId srcPos destId destPos n).getD k [] =
          blocks.getD k [])) ∧
    (∀ (blocks : List Block) (bid srcPos destPos n : Nat),
      bid < blocks.length → srcPos ≤ destPos ∨ destPos + n ≤ srcPos →
      destPos + n ≤ (blocks.getD bid []).length →
      (∀ i, i < n →
        ((copyArrayElements blocks bid srcPos bid destPos n).getD bid []).getD
            (destPos + i) 0 =
          (blocks.getD bid []).getD (srcPos + i) 0) ∧
      (∀ p, p < destPos ∨ destPos + n ≤ p →
        ((copyArrayElements blocks bid srcPos bid destPos n).getD bid []).getD p 0 =
          (blocks.getD bid []).getD p 0)) := by
  refine ⟨copyArrayElements_succ, ?_, ?_⟩
  · intro blocks srcId srcPos destId destPos n hne hd hlen
    obtain ⟨h1, h2⟩ := copyArrayElements_char n blocks srcId srcPos destId destPos hd hlen
      (fun hh => absurd hh hne)
    refine ⟨fun i hi => ?_, fun p hp => ?_, h2⟩
    · rw [h1 (destPos + i), if_pos (by omega)]
      congr 1
      omega
    · rw [h1 p, if_neg (by omega)]
  · intro blocks bid srcPos destPos n hd halias hlen
    obtain ⟨h1, _⟩ := copyArrayElements_char n blocks bid srcPos bid destPos hd hlen
      (fun _ => halias)
    refine ⟨fun i hi => ?_, fun p hp => ?_⟩
    · rw [h1 (destPos + i), if_pos (by omega)]
      congr 1
      omega
    · rw [h1 p, if_neg (by omega)]

/-- Witness for C6: copying 2 bytes between two blocks and rightward within
one block. -/
theorem copyArrayElements_memmove_witness :
    (((copyArrayElements [[1, 2], [0, 0, 7]] 0 0 1 1 2).getD 1 []).getD (1 + 0) 0 =
        ([1, 2] : Block).getD (0 + 0) 0 ∧
      ((copyArrayElements [[1, 2], [0, 0, 7]] 0 0 1 1 2).getD 1 []).getD (1 + 1) 0 =
        ([1, 2] : Block).getD (0 + 1) 0) ∧
    ((copyArrayElements [[3, 4, 0, 0]] 0 0 0 1 2).getD 0 []).getD (1 + 0) 0 =
      ([3, 4, 0, 0] : Block).getD (0 + 0) 0 :=
  ⟨⟨(copyArrayElements_memmove.2.1 [[1, 2], [0, 0, 7]] 0 0 1 1 2 (by omega) (by norm_num)
        (by norm_num)).1 0 (by omega),
    (copyArrayElements_memmove.2.1 [[1, 2], [0, 0, 7]] 0 0 1 1 2 (by omega) (by norm_num)
        (by norm_num)).1 1 (by omega)⟩,
   (copyArrayElements_memmove.2.2 [[3, 4, 0, 0]] 0 0 1 2 (by norm_num) (by omega)
        (by norm_num)).1 0 (by omega)⟩

/-! ### C9 — termination of the copy loop -/

lemma copyFuel_zero (src : Block) (srcPos : Int) (dest : Block) (destPos len : Int) :
    copyArrayElementsFuel src srcPos dest destPos len 0 = none := rfl

lemma copyFuel_succ (src : Block) (srcPos : Int) (dest : Block) (destPos len : Int) (fuel : Nat) :
    copyArrayElementsFuel src srcPos dest destPos len (fuel + 1) =
      if len = 0 then some dest
      else
        copyArrayElementsFuel src srcPos
          (setI dest (destPos + (len - 1)) (getI src (srcPos + (len - 1))))
          destPos (len - 1) fuel := rfl

/-- C9: the `while (length--)` loop terminates for every `length = n ≥ 0`
after exactly `n` body iterations — it completes within `n + 1` tests and
within no fewer (any fuel `≤ n` is insufficient) — and a zero length leaves
the destination untouched; for a negative JS `length` the pre-decrement
test never sees zero, so the loop never terminates on any fuel, making
`length ≥ 0` a necessary precondition. -/
theorem copyLoop_termination :
    (∀ (src : Block) (srcPos : Int) (dest : Block) (destPos : Int) (n : Nat),
      ∃ r, copyArrayElementsFuel src srcPos dest destPos (n : Int) (n + 1) = some r) ∧
    (∀ (src : Block) (srcPos : Int) (dest : Block) (destPos : Int) (n fuel : Nat), fuel ≤ n →
      copyArrayElementsFuel src srcPos dest destPos (n : Int) fuel = none) ∧
    (∀ (src : Block) (srcPos : Int) (dest : Block) (destPos : Int),
      copyArrayElementsFuel src srcPos dest destPos 0 1 = some dest) ∧
    (∀ (src : Block) (srcPos : Int) (dest : Block) (destPos : Int) (len : Int), len < 0 →
      ∀ fuel, copyArrayElementsFuel src srcPos dest destPos len fuel = none) := by
  have key1 : ∀ (n : Nat) (src : Block) (srcPos : Int) (dest : Block) (destPos : Int),
      ∃ r, copyArrayElementsFuel src srcPos dest destPos (n : Int) (n + 1) = some r := by
    intro n
    induction n with
    | zero => intro src srcPos dest destPos; exact ⟨dest, rfl⟩
    | succ n ih =>
      intro src srcPos dest destPos
      rw [copyFuel_succ, if_neg (by omega)]
      have hcast : ((n + 1 : Nat) : Int) - 1 = (n : Int) := by push_cast; ring
      rw [hcast]
      exact ih src srcPos _ destPos
  have key2 : ∀ (fuel n : Nat), fuel ≤ n →
      ∀ (src : Block) (srcPos : Int) (dest : Block) (destPos : Int),
        copyArrayElementsFuel src srcPos dest destPos (n : Int) fuel = none := by
    intro fuel
    induction fuel with
    | zero => intro n _ src srcPos dest destPos; rfl
    | succ fuel ih =>
      intro n hle src srcPos dest destPos
      obtain ⟨m, rfl⟩ : ∃ m, n = m + 1 := ⟨n - 1, by omega⟩
      rw [copyFuel_succ, if_neg (by omega)]
      have hcast : ((m + 1 : Nat) : Int) - 1 = (m : Int) := by push_cast; ring
      rw [hcast]
      exact ih m (by omega) src srcPos _ destPos
  have key4 : ∀ (fuel : Nat) (len : Int), len < 0 →
      ∀ (src : Block) (srcPos : Int) (dest : Block) (destPos : Int),
        copyArrayElementsFuel src srcPos dest destPos len fuel = none := by
    intro fuel
    induction fuel with
    | zero => intro len _ src srcPos dest destPos; rfl
    | succ fuel ih =>
      intro len hneg src srcPos dest destPos
      rw [copyFuel_succ, if_neg (by omega)]
      exact ih (len - 1) (by omega) src srcPos _ destPos
  exact ⟨fun src srcPos dest destPos n => key1 n src srcPos dest destPos,
    fun src srcPos dest destPos n fuel hle => key2 fuel n hle src srcPos dest destPos,
    fun src srcPos dest destPos => rfl,
    fun src srcPos dest destPos len hneg fuel => key4 fuel len hneg src srcPos dest destPos⟩

/-- Witness for C9: with length 1, fuel 1 (one test, no completed exit) is
insufficient; a negative length never terminates; length 0 returns the
destination unchanged. -/
theorem copyLoop_termination_witness :
    copyArrayElementsFuel [3] 0 [4] 0 ((1 : Nat) : Int) 1 = none ∧
    copyArrayElementsFuel [3] 0 [4] 0 (-1) 5 = none ∧
    copyArrayElementsFuel [3] 0 [4] 0 0 1 = some [4] :=
  ⟨copyLoop_termination.2.1 [3] 0 [4] 0 1 1 (Nat.le_refl 1),
   copyLoop_termination.2.2.2 [3] 0 [4] 0 (-1) (by omega) 5,
   copyLoop_termination.2.2.1 [3] 0 [4] 0⟩
